import Mathlib

/-!
Verification of `cookbook/rag_examples/rag_example.py` (barapa/mirascope).

The script is sequencing: load-or-build an embedded news dataframe (cached on
disk as a pickle snapshot), optionally provision a Pinecone index, then loop
over a fixed topic list, summarizing each topic through one of two retrieval
backends and printing the result.

We shallowly embed the script as a pure function producing an event trace.
External effects (data loading, embedding, Pinecone setup, the two summarize
paths) are parameters of an `Env` record of `Except`-valued functions, so that
error propagation is explicit.  Components of the repository whose code is not
included (the `utils`, `setup_pinecone` and prompt modules, and the mirascope
`OpenAIChat` class) are modelled from the specification and are marked as such
in their doc comments.
-/

/-- Error taxonomy of the spec (section 7): loader, embedding, hosted-index,
provisioning and completion failures, plus a missing-credential rejection by
the provider. -/
inductive Err where
  | sourceUnavailable
  | emptyCorpus
  | embeddingProviderError
  | indexUnavailable
  | provisionError
  | completionError
  | missingCredential
deriving DecidableEq, Repr

/-- An article record of the corpus dataframe: title/description metadata, a
token count, and an optional embedding vector (absent until the embedding
stage runs).  Vectors are modelled as integer lists. -/
structure ArticleRecord where
  title : String
  description : String
  tokenCount : Nat
  embedding : Option (List Int)
deriving DecidableEq, Repr

/-- The corpus: an ordered collection of article records (the dataframe). -/
abbrev Corpus := List ArticleRecord

/-- Observable events of a run of `main`, in program order. -/
inductive Event where
  | load
  | embed
  | writeSnapshot
  | readSnapshot
  | provision
  | retrieve (hosted : Bool) (topic : String) (count : Nat)
  | output (s : String)
deriving DecidableEq, Repr

/-- The external operations `main` calls, as `Except`-valued functions:
`load_data`, `embed_df_with_openai`, `setup_pinecone`, and the two summarize
helpers (each of which embeds the query, retrieves articles and calls the
chat completion internally). -/
structure Env where
  load_data : Except Err Corpus
  embed_df : Corpus → Except Err Corpus
  setup_pinecone : Corpus → Except Err Unit
  summarize_pinecone : String → Nat → Corpus → Except Err String
  summarize_local : String → Nat → Corpus → Except Err String

/-- The result of a run: the event trace up to termination, the final
snapshot-file state (`none` = file absent), and success or the propagated
error. -/
structure RunResult where
  events : List Event
  fs : Option Corpus
  result : Except Err Unit
deriving Repr

/-- The hard-coded topic list of `main` (lines 79-83 of the script). -/
def topics : List String :=
  ["soccer teams/players going through trouble",
   "environmental factors affecting economy",
   "celebrity or politician scandals"]

/-- The topic loop of `main` (lines 84-89): for each topic, call the
backend selected by `use_pinecone` with the topic and a count of 3, print the
summary, then print a blank-line separator; stop at the first error. -/
def topicLoop (use_pinecone : Bool) (df : Corpus) (env : Env) :
    List String → List Event × Except Err Unit
  | [] => ([], Except.ok ())
  | t :: ts =>
    let call := if use_pinecone then env.summarize_pinecone t 3 df
                else env.summarize_local t 3 df
    match call with
    | Except.error e => ([Event.retrieve use_pinecone t 3], Except.error e)
    | Except.ok s =>
      let rest := topicLoop use_pinecone df env ts
      (Event.retrieve use_pinecone t 3 :: Event.output s ::
        Event.output "\n" :: rest.1, rest.2)

/-- The cache phase of `main` (lines 69-74): if the snapshot file does not
exist, fetch the data, embed it, and write the snapshot; otherwise read the
snapshot.  Returns the events, the resulting file state, and the dataframe or
the propagated error. -/
def cachePhase (fs : Option Corpus) (env : Env) :
    List Event × Option Corpus × Except Err Corpus :=
  match fs with
  | none =>
    match env.load_data with
    | Except.error e => ([Event.load], none, Except.error e)
    | Except.ok df0 =>
      match env.embed_df df0 with
      | Except.error e => ([Event.load, Event.embed], none, Except.error e)
      | Except.ok df =>
        ([Event.load, Event.embed, Event.writeSnapshot], some df, Except.ok df)
  | some c => ([Event.readSnapshot], some c, Except.ok c)

/-- `main(use_pinecone=False)` (lines 68-89): cache phase, then (hosted mode
only) `setup_pinecone(df=df)`, then the topic loop. -/
def mainRun (use_pinecone : Bool) (fs : Option Corpus) (env : Env) : RunResult :=
  match cachePhase fs env with
  | (evs₁, fs', Except.error e) => ⟨evs₁, fs', Except.error e⟩
  | (evs₁, fs', Except.ok df) =>
    if use_pinecone then
      match env.setup_pinecone df with
      | Except.error e => ⟨evs₁ ++ [Event.provision], fs', Except.error e⟩
      | Except.ok _ =>
        let lp := topicLoop true df env topics
        ⟨evs₁ ++ Event.provision :: lp.1, fs', lp.2⟩
    else
      let lp := topicLoop false df env topics
      ⟨evs₁ ++ lp.1, fs', lp.2⟩

/-- The `argparse` setup (lines 92-98): a single `store_true` flag named
`-pc` / `--pinecone`, true iff passed, defaulting to false. -/
def parseArgs (argv : List String) : Bool :=
  argv.contains "-pc" || argv.contains "--pinecone"

/-- The `__main__` entry point (line 98): `main(use_pinecone=args.pinecone)`. -/
def mainEntry (argv : List String) (fs : Option Corpus) (env : Env) : RunResult :=
  mainRun (parseArgs argv) fs env

/-- The process exit code: 0 on success, nonzero on a propagated exception. -/
def exitCode (r : RunResult) : Nat :=
  match r.result with
  | Except.ok _ => 0
  | Except.error _ => 1

/-- Modelled from the spec: `embed_df_with_openai` from the `utils` module is
not included in the sources; per spec section 4.2, for every article record
lacking an embedding it requests a vector from the embedding provider
(`client`, text to vector) and attaches it, leaving already-embedded records
untouched. -/
def embed_df_with_openai (corpus : Corpus) (client : String → List Int) : Corpus :=
  corpus.map fun r =>
    match r.embedding with
    | some _ => r
    | none => { r with embedding := some (client r.description) }

/-- The similarity score between two vectors: the dot product (spec section
4.3, glossary). -/
def similarity : List Int → List Int → Int
  | [], _ => 0
  | _, [] => 0
  | x :: xs, y :: ys => x * y + similarity xs ys

/-- Inserting a scored entry into a list sorted by non-increasing score,
keeping it after strictly greater scores but before equal ones, so that
earlier corpus entries win ties (stable descending insertion). -/
def insertDesc (a : Nat × Int) : List (Nat × Int) → List (Nat × Int)
  | [] => [a]
  | b :: bs => if b.2 > a.2 then b :: insertDesc a bs else a :: b :: bs

/-- Stable descending-by-score insertion sort. -/
def sortByScoreDesc : List (Nat × Int) → List (Nat × Int)
  | [] => []
  | a :: as => insertDesc a (sortByScoreDesc as)

/-- Modelled from the spec: the Local Similarity Retriever (the
`LocalNewsRagPrompt` module is not included in the sources); per spec section
4.3, it embeds the query via the provider, computes the dot-product similarity
against every record's vector, sorts descending by score with ties broken by
original corpus order, and returns the top `count` entries as (corpus index,
score) pairs. -/
def retrieveLocal (client : String → List Int) (query : String) (count : Nat)
    (corpus : Corpus) : List (Nat × Int) :=
  let qv := client query
  let scored :=
    (corpus.map fun r => similarity qv (r.embedding.getD [])).enum
  (sortByScoreDesc scored).take count

/-- The mirascope chat client: holds the credential passed at construction.
Modelled from the spec: the `OpenAIChat` class is not included in the sources;
per spec section 6, the constructor stores the credential without validating
it. -/
structure OpenAIChat where
  api_key : Option String
deriving DecidableEq, Repr

/-- Modelled from the spec: a provider call through the chat client
(`chat.create`); per spec section 6, the absence of the credential causes the
provider call to fail rather than being caught earlier, and otherwise the
provider's completion for the prompt is returned. -/
def OpenAIChat.create (chat : OpenAIChat) (prompt : String)
    (provider : String → String) : Except Err String :=
  match chat.api_key with
  | none => Except.error Err.missingCredential
  | some _ => Except.ok (provider prompt)

/-- Module-load initialization (line 21 of the script):
`chat = OpenAIChat(api_key=os.getenv("OPENAI_API_KEY"))`.  A total function of
the process environment: construction never fails, even when the variable is
absent. -/
def moduleInit (envVars : String → Option String) : OpenAIChat :=
  ⟨envVars "OPENAI_API_KEY"⟩

/-- The ranking order of the result set: strictly greater score first, equal
scores ordered by original corpus index. -/
def RankedBefore (x y : Nat × Int) : Prop :=
  x.2 > y.2 ∨ (x.2 = y.2 ∧ x.1 < y.1)

/-- A concrete environment in which every external call succeeds, used to
instantiate the universally quantified theorems below. -/
def okEnv : Env where
  load_data := Except.ok []
  embed_df := fun c => Except.ok c
  setup_pinecone := fun _ => Except.ok ()
  summarize_pinecone := fun _ _ _ => Except.ok "P"
  summarize_local := fun _ _ _ => Except.ok "L"

/-- A concrete environment whose loader fails, used to instantiate the
propagation theorems below. -/
def loadFailEnv : Env where
  load_data := Except.error Err.sourceUnavailable
  embed_df := fun c => Except.ok c
  setup_pinecone := fun _ => Except.ok ()
  summarize_pinecone := fun _ _ _ => Except.ok "P"
  summarize_local := fun _ _ _ => Except.ok "L"

/-- A concrete already-embedded article record. -/
def sampleRecord : ArticleRecord :=
  ⟨"title", "description", 4, some [1, 2]⟩

/-! ### Helper lemmas shared between claims -/

/-- Membership in a stable-descending insertion comes from the inserted
element or the original list. -/
theorem mem_insertDesc {c a : Nat × Int} {l : List (Nat × Int)}
    (h : c ∈ insertDesc a l) : c = a ∨ c ∈ l := by
  induction l with
  | nil => simpa [insertDesc] using h
  | cons b bs ih =>
    by_cases hb : b.2 > a.2
    · simp only [insertDesc, if_pos hb, List.mem_cons] at h
      rcases h with h | h
      · exact Or.inr (by simp [h])
      · rcases ih h with h' | h'
        · exact Or.inl h'
        · exact Or.inr (List.mem_cons_of_mem _ h')
    · simp only [insertDesc, if_neg hb, List.mem_cons] at h
      rcases h with h | h
      · exact Or.inl h
      · exact Or.inr (by simpa using h)

/-- Membership in the stable descending sort comes from the input list. -/
theorem mem_sortByScoreDesc {c : Nat × Int} {l : List (Nat × Int)}
    (h : c ∈ sortByScoreDesc l) : c ∈ l := by
  induction l with
  | nil => simp [sortByScoreDesc] at h
  | cons a as ih =>
    rcases mem_insertDesc h with h' | h'
    · simp [h']
    · exact List.mem_cons_of_mem _ (ih h')

/-- Stable descending insertion preserves the ranking invariant when the
inserted element carries a strictly smaller corpus index than everything
already in the list. -/
theorem insertDesc_pairwise {a : Nat × Int} {l : List (Nat × Int)}
    (hlt : ∀ b ∈ l, a.1 < b.1) (hp : List.Pairwise RankedBefore l) :
    List.Pairwise RankedBefore (insertDesc a l) := by
  induction l with
  | nil => simp [insertDesc]
  | cons b bs ih =>
    rcases List.pairwise_cons.mp hp with ⟨hb, hbs⟩
    by_cases hgt : b.2 > a.2
    · rw [insertDesc, if_pos hgt]
      refine List.pairwise_cons.mpr ⟨?_, ?_⟩
      · intro c hc
        rcases mem_insertDesc hc with rfl | hc'
        · exact Or.inl hgt
        · exact hb c hc'
      · exact ih (fun b' hb' => hlt b' (List.mem_cons_of_mem _ hb')) hbs
    · rw [insertDesc, if_neg hgt]
      refine List.pairwise_cons.mpr ⟨?_, hp⟩
      intro c hc
      rcases List.mem_cons.mp hc with rfl | hc'
      · rcases lt_or_eq_of_le (not_lt.mp hgt) with h' | h'
        · exact Or.inl h'
        · exact Or.inr ⟨h'.symm, hlt c (List.mem_cons_self _ _)⟩
      · rcases hb c hc' with h' | h'
        · exact Or.inl (lt_of_lt_of_le h' (not_lt.mp hgt))
        · rcases lt_or_eq_of_le (not_lt.mp hgt) with h'' | h''
          · exact Or.inl (h'.1 ▸ h'')
          · exact Or.inr ⟨h''.symm.trans h'.1, hlt c (List.mem_cons_of_mem _ hc')⟩

/-- The stable descending sort of a list with strictly increasing indices
satisfies the ranking invariant. -/
theorem sortByScoreDesc_pairwise {l : List (Nat × Int)}
    (h : List.Pairwise (fun x y : Nat × Int => x.1 < y.1) l) :
    List.Pairwise RankedBefore (sortByScoreDesc l) := by
  induction l with
  | nil => simp [sortByScoreDesc]
  | cons a as ih =>
    rcases List.pairwise_cons.mp h with ⟨ha, has⟩
    exact insertDesc_pairwise
      (fun b hb => ha b (mem_sortByScoreDesc hb)) (ih has)

/-- Stable descending insertion adds one element to the length. -/
theorem length_insertDesc (a : Nat × Int) (l : List (Nat × Int)) :
    (insertDesc a l).length = l.length + 1 := by
  induction l with
  | nil => rfl
  | cons b bs ih =>
    by_cases hb : b.2 > a.2
    · simp [insertDesc, if_pos hb, ih]
    · simp [insertDesc, if_neg hb]

/-- The stable descending sort preserves length. -/
theorem length_sortByScoreDesc (l : List (Nat × Int)) :
    (sortByScoreDesc l).length = l.length := by
  induction l with
  | nil => rfl
  | cons a as ih => simp [sortByScoreDesc, length_insertDesc, ih]

/-- Every event of the topic loop is a retrieval with the loop's backend or a
print. -/
theorem topicLoop_event_shape (f : Bool) (df : Corpus) (env : Env)
    (ts : List String) :
    ∀ e ∈ (topicLoop f df env ts).1,
      (∃ t, e = Event.retrieve f t 3) ∨ (∃ s, e = Event.output s) := by
  induction ts with
  | nil => intro e he; simp [topicLoop] at he
  | cons t ts ih =>
    intro e he
    rw [topicLoop] at he
    rcases hc : (if f then env.summarize_pinecone t 3 df
        else env.summarize_local t 3 df) with e' | s
    · rw [hc] at he
      simp only [List.mem_singleton] at he
      exact Or.inl ⟨t, he⟩
    · rw [hc] at he
      simp only [List.mem_cons] at he
      rcases he with rfl | rfl | rfl | he
      · exact Or.inl ⟨t, rfl⟩
      · exact Or.inr ⟨s, rfl⟩
      · exact Or.inr ⟨"\n", rfl⟩
      · exact ih e he

/-- The cache phase's event trace is one of four explicit lists, depending on
the file's presence and where the build pipeline stops. -/
theorem cachePhase_events_cases (fs : Option Corpus) (env : Env) :
    (cachePhase fs env).1 = [Event.readSnapshot] ∨
    (cachePhase fs env).1 = [Event.load] ∨
    (cachePhase fs env).1 = [Event.load, Event.embed] ∨
    (cachePhase fs env).1 = [Event.load, Event.embed, Event.writeSnapshot] := by
  match fs with
  | some c => exact Or.inl rfl
  | none =>
    rcases hl : env.load_data with e | df0
    · exact Or.inr (Or.inl (by simp [cachePhase, hl]))
    · rcases hm : env.embed_df df0 with e | df
      · exact Or.inr (Or.inr (Or.inl (by simp [cachePhase, hl, hm])))
      · exact Or.inr (Or.inr (Or.inr (by simp [cachePhase, hl, hm])))

/-- Every event of the cache phase is a load, embed, snapshot write or
snapshot read. -/
theorem cachePhase_event_shape (fs : Option Corpus) (env : Env) :
    ∀ e ∈ (cachePhase fs env).1,
      e = Event.load ∨ e = Event.embed ∨ e = Event.writeSnapshot ∨
        e = Event.readSnapshot := by
  intro e he
  rcases cachePhase_events_cases fs env with h | h | h | h <;> rw [h] at he <;>
    simp only [List.mem_cons, List.mem_singleton, List.not_mem_nil,
      or_false] at he
  · simp [he]
  · simp [he]
  · rcases he with h' | h' <;> simp [h']
  · rcases he with h' | h' | h' <;> simp [h']

/-- If the cache phase fails, the run is exactly the cache phase's events,
file state and error. -/
theorem mainRun_cache_error (f : Bool) (fs : Option Corpus) (env : Env)
    (evs : List Event) (fs' : Option Corpus) (e : Err)
    (h : cachePhase fs env = (evs, fs', Except.error e)) :
    mainRun f fs env = ⟨evs, fs', Except.error e⟩ := by
  rw [mainRun, h]

/-- Local mode after a successful cache phase: the run is the cache events
followed by the local topic loop; no provisioning. -/
theorem mainRun_local (fs : Option Corpus) (env : Env)
    (evs : List Event) (fs' : Option Corpus) (df : Corpus)
    (h : cachePhase fs env = (evs, fs', Except.ok df)) :
    mainRun false fs env =
      ⟨evs ++ (topicLoop false df env topics).1, fs',
        (topicLoop false df env topics).2⟩ := by
  rw [mainRun, h]
  simp

/-- Hosted mode after a successful cache phase and successful provisioning:
the run is the cache events, the provisioning event, then the hosted topic
loop. -/
theorem mainRun_hosted_ok (fs : Option Corpus) (env : Env)
    (evs : List Event) (fs' : Option Corpus) (df : Corpus)
    (h : cachePhase fs env = (evs, fs', Except.ok df))
    (hsp : env.setup_pinecone df = Except.ok ()) :
    mainRun true fs env =
      ⟨evs ++ Event.provision :: (topicLoop true df env topics).1, fs',
        (topicLoop true df env topics).2⟩ := by
  rw [mainRun, h]
  simp [hsp]

/-- Hosted mode after a successful cache phase with failing provisioning:
the run stops at the provisioning event with the propagated error. -/
theorem mainRun_hosted_err (fs : Option Corpus) (env : Env)
    (evs : List Event) (fs' : Option Corpus) (df : Corpus) (e : Err)
    (h : cachePhase fs env = (evs, fs', Except.ok df))
    (hsp : env.setup_pinecone df = Except.error e) :
    mainRun true fs env = ⟨evs ++ [Event.provision], fs', Except.error e⟩ := by
  rw [mainRun, h]
  simp [hsp]

/-- An error coming out of the topic loop is the error of one of the
backend's summarize calls for one of the loop's topics, with a count of 3. -/
theorem topicLoop_error (f : Bool) (df : Corpus) (env : Env)
    (ts : List String) (e : Err)
    (h : (topicLoop f df env ts).2 = Except.error e) :
    ∃ t, (if f then env.summarize_pinecone t 3 df
          else env.summarize_local t 3 df) = Except.error e := by
  induction ts with
  | nil => simp [topicLoop] at h
  | cons t ts ih =>
    rw [topicLoop] at h
    rcases hc : (if f then env.summarize_pinecone t 3 df
        else env.summarize_local t 3 df) with e' | s
    · rw [hc] at h
      simp only [Except.error.injEq] at h
      exact ⟨t, h ▸ hc⟩
    · rw [hc] at h
      simp only at h
      exact ih h

/-- An error coming out of the cache phase is the loader's or the embedding
stage's. -/
theorem cachePhase_error (fs : Option Corpus) (env : Env) (e : Err)
    (h : (cachePhase fs env).2.2 = Except.error e) :
    env.load_data = Except.error e ∨
      ∃ c, env.embed_df c = Except.error e := by
  match fs with
  | some c => simp [cachePhase] at h
  | none =>
    rcases hl : env.load_data with e₁ | df0
    · simp [cachePhase, hl] at h
      subst h
      exact Or.inl rfl
    · rcases hm : env.embed_df df0 with e₂ | df
      · simp [cachePhase, hl, hm] at h
        subst h
        exact Or.inr ⟨df0, hm⟩
      · simp [cachePhase, hl, hm] at h

/-- When the snapshot file is present, the cache phase reads it and returns
its contents unchanged. -/
theorem cachePhase_hit (c : Corpus) (env : Env) :
    cachePhase (some c) env = ([Event.readSnapshot], some c, Except.ok c) :=
  rfl

/-- When the snapshot file is absent and both build steps succeed, the cache
phase fetches, embeds and writes the snapshot. -/
theorem cachePhase_miss (env : Env) (df0 df : Corpus)
    (hl : env.load_data = Except.ok df0) (hm : env.embed_df df0 = Except.ok df) :
    cachePhase none env =
      ([Event.load, Event.embed, Event.writeSnapshot], some df, Except.ok df) := by
  simp [cachePhase, hl, hm]

/-! ### Claim theorems -/

/-- C4: The Embedding Stage is idempotent: for every corpus in which all
records already carry an embedding, re-running the Embedding Stage produces a
corpus identical to its input. -/
theorem embedding_stage_idempotent (corpus : Corpus)
    (client : String → List Int)
    (h : ∀ r ∈ corpus, r.embedding.isSome) :
    embed_df_with_openai corpus client = corpus := by
  induction corpus with
  | nil => rfl
  | cons r rs ih =>
    have hr := h r (List.mem_cons_self _ _)
    rcases hv : r.embedding with _ | v
    · rw [hv] at hr
      simp at hr
    · have tl := ih fun r' hr' => h r' (List.mem_cons_of_mem _ hr')
      simp only [embed_df_with_openai, List.map_cons, hv] at tl ⊢
      rw [tl]

/-- Witness for C4 at a concrete one-record, already-embedded corpus. -/
theorem embedding_stage_idempotent_witness :
    (∀ r ∈ ([sampleRecord] : Corpus), r.embedding.isSome) ∧
    embed_df_with_openai [sampleRecord] (fun _ => []) = [sampleRecord] :=
  ⟨by decide, embedding_stage_idempotent [sampleRecord] (fun _ => []) (by decide)⟩

/-- C9: a run that finds the snapshot file present leaves its contents
unchanged and never writes the snapshot. -/
theorem snapshot_never_overwritten (f : Bool) (c : Corpus) (env : Env) :
    (mainRun f (some c) env).fs = some c ∧
    Event.writeSnapshot ∉ (mainRun f (some c) env).events := by
  cases f with
  | false =>
    rw [mainRun_local (some c) env [Event.readSnapshot] (some c) c
      (cachePhase_hit c env)]
    refine ⟨rfl, fun hmem => ?_⟩
    simp at hmem
    rcases topicLoop_event_shape false c env topics _ hmem with ⟨t, ht⟩ | ⟨s, hs⟩
    · exact Event.noConfusion ht
    · exact Event.noConfusion hs
  | true =>
    rcases hsp : env.setup_pinecone c with e | u
    · rw [mainRun_hosted_err (some c) env [Event.readSnapshot] (some c) c e
        (cachePhase_hit c env) hsp]
      refine ⟨rfl, fun hmem => ?_⟩
      simp at hmem
    · rw [mainRun_hosted_ok (some c) env [Event.readSnapshot] (some c) c
        (cachePhase_hit c env) hsp]
      refine ⟨rfl, fun hmem => ?_⟩
      simp at hmem
      rcases topicLoop_event_shape true c env topics _ hmem with ⟨t, ht⟩ | ⟨s, hs⟩
      · exact Event.noConfusion ht
      · exact Event.noConfusion hs

/-- C8: the provider credential is read from the process environment when the
global chat client is constructed at module load; construction itself never
fails and does not validate the credential, and a later provider call fails
with a missing-credential error exactly when the variable was absent. -/
theorem credential_read_lazily (envVars : String → Option String) :
    (moduleInit envVars).api_key = envVars "OPENAI_API_KEY" ∧
    (envVars "OPENAI_API_KEY" = none →
      ∀ p provider, (moduleInit envVars).create p provider =
        Except.error Err.missingCredential) := by
  refine ⟨rfl, fun habs p provider => ?_⟩
  simp [moduleInit, OpenAIChat.create, habs]

/-- Witness for C8 at a concrete empty process environment. -/
theorem credential_read_lazily_witness :
    ((fun _ => none : String → Option String) "OPENAI_API_KEY" = none) ∧
    (moduleInit (fun _ => none)).create "prompt" id =
      Except.error Err.missingCredential :=
  ⟨rfl, (credential_read_lazily (fun _ => none)).2 rfl "prompt" id⟩

/-- The cache phase performs no retrieval. -/
theorem cachePhase_no_retrieve (fs : Option Corpus) (env : Env)
    (b : Bool) (t : String) (n : Nat) :
    Event.retrieve b t n ∉ (cachePhase fs env).1 := by
  intro h
  rcases cachePhase_event_shape fs env _ h with h' | h' | h' | h' <;>
    exact Event.noConfusion h'

/-- The cache phase performs no provisioning. -/
theorem cachePhase_no_provision (fs : Option Corpus) (env : Env) :
    Event.provision ∉ (cachePhase fs env).1 := by
  intro h
  rcases cachePhase_event_shape fs env _ h with h' | h' | h' | h' <;>
    exact Event.noConfusion h'

/-- The topic loop performs no provisioning. -/
theorem topicLoop_no_provision (f : Bool) (df : Corpus) (env : Env)
    (ts : List String) :
    Event.provision ∉ (topicLoop f df env ts).1 := by
  intro h
  rcases topicLoop_event_shape f df env ts _ h with ⟨t, ht⟩ | ⟨s, hs⟩
  · exact Event.noConfusion ht
  · exact Event.noConfusion hs

/-- A retrieval event of a run always carries the run's flag as backend and a
count of 3. -/
theorem mainRun_retrieve_flag (f : Bool) (fs : Option Corpus) (env : Env)
    (b : Bool) (t : String) (n : Nat)
    (h : Event.retrieve b t n ∈ (mainRun f fs env).events) : b = f ∧ n = 3 := by
  rcases hc : cachePhase fs env with ⟨evs, fs', r⟩
  have hevs : (cachePhase fs env).1 = evs := by rw [hc]
  rcases r with e | df
  · rw [mainRun_cache_error f fs env evs fs' e hc] at h
    exact absurd (hevs ▸ h) (cachePhase_no_retrieve fs env b t n)
  · have hinloop : ∀ g, Event.retrieve b t n ∈ (topicLoop g df env topics).1 →
        b = g ∧ n = 3 := by
      intro g hm
      rcases topicLoop_event_shape g df env topics _ hm with ⟨t', ht⟩ | ⟨s, hs⟩
      · injection ht with h1 h2 h3
        exact ⟨h1, h3⟩
      · exact Event.noConfusion hs
    cases f with
    | false =>
      rw [mainRun_local fs env evs fs' df hc] at h
      simp only [List.mem_append] at h
      rcases h with h | h
      · exact absurd (hevs ▸ h) (cachePhase_no_retrieve fs env b t n)
      · exact hinloop false h
    | true =>
      rcases hsp : env.setup_pinecone df with e | u
      · rw [mainRun_hosted_err fs env evs fs' df e hc hsp] at h
        simp only [List.mem_append, List.mem_singleton] at h
        rcases h with h | h
        · exact absurd (hevs ▸ h) (cachePhase_no_retrieve fs env b t n)
        · exact Event.noConfusion h
      · rw [mainRun_hosted_ok fs env evs fs' df hc hsp] at h
        simp only [List.mem_append, List.mem_cons] at h
        rcases h with h | h | h
        · exact absurd (hevs ▸ h) (cachePhase_no_retrieve fs env b t n)
        · exact Event.noConfusion h
        · exact hinloop true h

/-- A provisioning event can only occur in a hosted-mode run. -/
theorem mainRun_provision_flag (f : Bool) (fs : Option Corpus) (env : Env)
    (h : Event.provision ∈ (mainRun f fs env).events) : f = true := by
  rcases hc : cachePhase fs env with ⟨evs, fs', r⟩
  have hevs : (cachePhase fs env).1 = evs := by rw [hc]
  rcases r with e | df
  · rw [mainRun_cache_error f fs env evs fs' e hc] at h
    exact absurd (hevs ▸ h) (cachePhase_no_provision fs env)
  · cases f with
    | false =>
      rw [mainRun_local fs env evs fs' df hc] at h
      simp only [List.mem_append] at h
      rcases h with h | h
      · exact absurd (hevs ▸ h) (cachePhase_no_provision fs env)
      · exact absurd h (topicLoop_no_provision false df env topics)
    | true => rfl

/-- C7: the retrieval backend is selected once per run and never changes:
every retrieval event of a run of `main` carries the backend determined by
the flag value at entry. -/
theorem backend_selected_once (f : Bool) (fs : Option Corpus) (env : Env)
    (b : Bool) (t : String) (n : Nat)
    (h : Event.retrieve b t n ∈ (mainRun f fs env).events) : b = f :=
  (mainRun_retrieve_flag f fs env b t n h).1

/-- Witness for C7: in a concrete local-mode run, the first topic's retrieval
event indeed carries the local backend. -/
theorem backend_selected_once_witness :
    Event.retrieve false "soccer teams/players going through trouble" 3 ∈
      (mainRun false (some []) okEnv).events ∧ false = false :=
  ⟨by decide, backend_selected_once false (some []) okEnv false
    "soccer teams/players going through trouble" 3 (by decide)⟩

/-- C2: the CLI exposes a single boolean flag (`-pc` / `--pinecone`,
`store_true`), defaulting to false when absent; the hosted backend is used for
a retrieval exactly when the flag was passed, and provisioning only happens
when it was passed. -/
theorem cli_flag_selects_backend (argv : List String) (fs : Option Corpus)
    (env : Env) :
    parseArgs [] = false ∧
    parseArgs argv = (argv.contains "-pc" || argv.contains "--pinecone") ∧
    (∀ b t n, Event.retrieve b t n ∈ (mainEntry argv fs env).events →
      (b = true ↔ parseArgs argv = true)) ∧
    (Event.provision ∈ (mainEntry argv fs env).events →
      parseArgs argv = true) := by
  refine ⟨rfl, rfl, fun b t n h => ?_, fun h => ?_⟩
  · have hb := (mainRun_retrieve_flag (parseArgs argv) fs env b t n h).1
    rw [hb]
  · exact mainRun_provision_flag (parseArgs argv) fs env h

/-- Witness for C2: with `-pc` passed, a concrete run's retrieval is hosted. -/
theorem cli_flag_selects_backend_witness :
    Event.retrieve true "soccer teams/players going through trouble" 3 ∈
      (mainEntry ["-pc"] (some []) okEnv).events ∧
    (true = true ↔ parseArgs ["-pc"] = true) :=
  ⟨by decide, (cli_flag_selects_backend ["-pc"] (some []) okEnv).2.2.1 true
    "soccer teams/players going through trouble" 3 (by decide)⟩

/-- With the snapshot present, a run's trace is the snapshot read followed
only by provisioning, retrieval and print events. -/
theorem mainRun_hit_events (f : Bool) (c : Corpus) (env : Env) :
    ∃ tail, (mainRun f (some c) env).events = Event.readSnapshot :: tail ∧
      ∀ e ∈ tail, e = Event.provision ∨ (∃ b t n, e = Event.retrieve b t n) ∨
        ∃ s, e = Event.output s := by
  cases f with
  | false =>
    rw [mainRun_local (some c) env [Event.readSnapshot] (some c) c
      (cachePhase_hit c env)]
    refine ⟨(topicLoop false c env topics).1, rfl, fun e he => ?_⟩
    rcases topicLoop_event_shape false c env topics e he with ⟨t, ht⟩ | ⟨s, hs⟩
    · exact Or.inr (Or.inl ⟨false, t, 3, ht⟩)
    · exact Or.inr (Or.inr ⟨s, hs⟩)
  | true =>
    rcases hsp : env.setup_pinecone c with e | u
    · rw [mainRun_hosted_err (some c) env [Event.readSnapshot] (some c) c e
        (cachePhase_hit c env) hsp]
      refine ⟨[Event.provision], rfl, fun e' he' => ?_⟩
      simp only [List.mem_singleton] at he'
      exact Or.inl he'
    · rw [mainRun_hosted_ok (some c) env [Event.readSnapshot] (some c) c
        (cachePhase_hit c env) hsp]
      refine ⟨Event.provision :: (topicLoop true c env topics).1, rfl,
        fun e he => ?_⟩
      rcases List.mem_cons.mp he with rfl | he'
      · exact Or.inl rfl
      · rcases topicLoop_event_shape true c env topics e he' with ⟨t, ht⟩ | ⟨s, hs⟩
        · exact Or.inr (Or.inl ⟨true, t, 3, ht⟩)
        · exact Or.inr (Or.inr ⟨s, hs⟩)

/-- C1: the cache decision depends only on the snapshot file's presence.
Present: the run starts by reading the snapshot and performs no fetch, no
embedding and no snapshot write.  Absent (with the build steps succeeding):
the run fetches, embeds and persists the snapshot before every later event,
in particular before any retrieval, and never reads the snapshot. -/
theorem snapshot_cache_decision (f : Bool) (env : Env) :
    (∀ c, (mainRun f (some c) env).events.head? = some Event.readSnapshot ∧
      Event.load ∉ (mainRun f (some c) env).events ∧
      Event.embed ∉ (mainRun f (some c) env).events ∧
      Event.writeSnapshot ∉ (mainRun f (some c) env).events) ∧
    (∀ df0 df, env.load_data = Except.ok df0 →
      env.embed_df df0 = Except.ok df →
      ∃ rest, (mainRun f none env).events =
          Event.load :: Event.embed :: Event.writeSnapshot :: rest ∧
        (mainRun f none env).fs = some df ∧
        Event.readSnapshot ∉ (mainRun f none env).events) := by
  constructor
  · intro c
    rcases mainRun_hit_events f c env with ⟨tail, htail, hshape⟩
    rw [htail]
    refine ⟨rfl, ?_, ?_, ?_⟩ <;> intro hmem <;>
      rcases List.mem_cons.mp hmem with h | h
    · exact Event.noConfusion h
    · rcases hshape _ h with h' | ⟨b, t, n, h'⟩ | ⟨s, h'⟩ <;>
        exact Event.noConfusion h'
    · exact Event.noConfusion h
    · rcases hshape _ h with h' | ⟨b, t, n, h'⟩ | ⟨s, h'⟩ <;>
        exact Event.noConfusion h'
    · exact Event.noConfusion h
    · rcases hshape _ h with h' | ⟨b, t, n, h'⟩ | ⟨s, h'⟩ <;>
        exact Event.noConfusion h'
  · intro df0 df hl hm
    have hc := cachePhase_miss env df0 df hl hm
    have hnoread : ∀ tail : List Event,
        (∀ e ∈ tail, e = Event.provision ∨
          (∃ b t n, e = Event.retrieve b t n) ∨ ∃ s, e = Event.output s) →
        Event.readSnapshot ∉
          (Event.load :: Event.embed :: Event.writeSnapshot :: tail) := by
      intro tail hshape hmem
      rcases List.mem_cons.mp hmem with h | h
      · exact Event.noConfusion h
      rcases List.mem_cons.mp h with h' | h'
      · exact Event.noConfusion h'
      rcases List.mem_cons.mp h' with h'' | h''
      · exact Event.noConfusion h''
      rcases hshape _ h'' with h₃ | ⟨b, t, n, h₃⟩ | ⟨s, h₃⟩ <;>
        exact Event.noConfusion h₃
    cases f with
    | false =>
      rw [mainRun_local none env [Event.load, Event.embed, Event.writeSnapshot]
        (some df) df hc]
      refine ⟨(topicLoop false df env topics).1, rfl, rfl, ?_⟩
      refine hnoread _ fun e he => ?_
      rcases topicLoop_event_shape false df env topics e he with ⟨t, ht⟩ | ⟨s, hs⟩
      · exact Or.inr (Or.inl ⟨false, t, 3, ht⟩)
      · exact Or.inr (Or.inr ⟨s, hs⟩)
    | true =>
      rcases hsp : env.setup_pinecone df with e | u
      · rw [mainRun_hosted_err none env
          [Event.load, Event.embed, Event.writeSnapshot] (some df) df e hc hsp]
        refine ⟨[Event.provision], rfl, rfl, ?_⟩
        refine hnoread _ fun e' he' => ?_
        simp at he'
        exact Or.inl he'
      · rw [mainRun_hosted_ok none env
          [Event.load, Event.embed, Event.writeSnapshot] (some df) df hc hsp]
        refine ⟨Event.provision :: (topicLoop true df env topics).1, rfl, rfl, ?_⟩
        refine hnoread _ fun e he => ?_
        rcases List.mem_cons.mp he with rfl | he'
        · exact Or.inl rfl
        · rcases topicLoop_event_shape true df env topics e he' with
            ⟨t, ht⟩ | ⟨s, hs⟩
          · exact Or.inr (Or.inl ⟨true, t, 3, ht⟩)
          · exact Or.inr (Or.inr ⟨s, hs⟩)

/-- Witness for C1: a concrete cache-miss run builds and persists the corpus
up front and never reads the snapshot. -/
theorem snapshot_cache_decision_witness :
    okEnv.load_data = Except.ok [] ∧ okEnv.embed_df [] = Except.ok [] ∧
    ∃ rest, (mainRun false none okEnv).events =
        Event.load :: Event.embed :: Event.writeSnapshot :: rest ∧
      (mainRun false none okEnv).fs = some [] ∧
      Event.readSnapshot ∉ (mainRun false none okEnv).events :=
  ⟨rfl, rfl, (snapshot_cache_decision false okEnv).2 [] [] rfl rfl⟩

/-- C6: provisioning never runs in local mode; in hosted mode, once the
corpus is obtained it runs exactly once, after the cache phase's events and
before any retrieval (the cache phase contains no retrieval, and all later
events follow the single provisioning event). -/
theorem provisioning_once (f : Bool) (fs : Option Corpus) (env : Env) :
    (f = false → Event.provision ∉ (mainRun f fs env).events) ∧
    (∀ df, (cachePhase fs env).2.2 = Except.ok df → f = true →
      ∃ post, (mainRun f fs env).events =
          (cachePhase fs env).1 ++ Event.provision :: post ∧
        Event.provision ∉ (cachePhase fs env).1 ∧
        Event.provision ∉ post ∧
        (∀ b t n, Event.retrieve b t n ∉ (cachePhase fs env).1)) := by
  constructor
  · intro hf hmem
    have := mainRun_provision_flag f fs env hmem
    rw [hf] at this
    exact Bool.noConfusion this
  · intro df hok hf
    subst hf
    rcases hc : cachePhase fs env with ⟨evs, fs', r⟩
    rw [hc] at hok
    simp only at hok
    subst hok
    have hevs : (cachePhase fs env).1 = evs := by rw [hc]
    have hnoprov : Event.provision ∉ evs :=
      hevs ▸ cachePhase_no_provision fs env
    have hnoret : ∀ b t n, Event.retrieve b t n ∉ evs :=
      fun b t n => hevs ▸ cachePhase_no_retrieve fs env b t n
    rcases hsp : env.setup_pinecone df with e | u
    · rw [mainRun_hosted_err fs env evs fs' df e hc hsp]
      exact ⟨[], rfl, hnoprov, by simp, hnoret⟩
    · rw [mainRun_hosted_ok fs env evs fs' df hc hsp]
      exact ⟨(topicLoop true df env topics).1, rfl, hnoprov,
        topicLoop_no_provision true df env topics, hnoret⟩

/-- Witness for C6: a concrete hosted-mode run with the snapshot present
provisions exactly once, between the snapshot read and the retrievals. -/
theorem provisioning_once_witness :
    (cachePhase (some []) okEnv).2.2 = Except.ok [] ∧
    ∃ post, (mainRun true (some []) okEnv).events =
        (cachePhase (some []) okEnv).1 ++ Event.provision :: post ∧
      Event.provision ∉ (cachePhase (some []) okEnv).1 ∧
      Event.provision ∉ post ∧
      (∀ b t n, Event.retrieve b t n ∉ (cachePhase (some []) okEnv).1) :=
  ⟨rfl, (provisioning_once true (some []) okEnv).2 [] rfl rfl⟩

/-- C5: no failure is caught or retried: the run exits with code 0 exactly
when its result is success, and a failing run exits nonzero with the
propagated error being exactly the error returned by one of the external
calls (loader, embedding, provisioning, or a summarize call). -/
theorem errors_propagate (f : Bool) (fs : Option Corpus) (env : Env) :
    (exitCode (mainRun f fs env) = 0 ↔
      (mainRun f fs env).result = Except.ok ()) ∧
    (∀ e, (mainRun f fs env).result = Except.error e →
      exitCode (mainRun f fs env) = 1 ∧
      (env.load_data = Except.error e ∨
       (∃ c, env.embed_df c = Except.error e) ∨
       (∃ c, env.setup_pinecone c = Except.error e) ∨
       (∃ t c, env.summarize_pinecone t 3 c = Except.error e) ∨
       (∃ t c, env.summarize_local t 3 c = Except.error e))) := by
  constructor
  · rcases hr : (mainRun f fs env).result with e | u
    · simp [exitCode, hr]
    · cases u
      simp [exitCode, hr]
  · intro e hr
    refine ⟨by simp [exitCode, hr], ?_⟩
    rcases hc : cachePhase fs env with ⟨evs, fs', r⟩
    rcases r with e' | df
    · rw [mainRun_cache_error f fs env evs fs' e' hc] at hr
      simp only [Except.error.injEq] at hr
      subst hr
      have : (cachePhase fs env).2.2 = Except.error e' := by rw [hc]
      rcases cachePhase_error fs env e' this with h | h
      · exact Or.inl h
      · exact Or.inr (Or.inl h)
    · cases f with
      | false =>
        rw [mainRun_local fs env evs fs' df hc] at hr
        simp only at hr
        rcases topicLoop_error false df env topics e hr with ⟨t, ht⟩
        simp only [Bool.false_eq_true, if_false] at ht
        exact Or.inr (Or.inr (Or.inr (Or.inr ⟨t, df, ht⟩)))
      | true =>
        rcases hsp : env.setup_pinecone df with e' | u
        · rw [mainRun_hosted_err fs env evs fs' df e' hc hsp] at hr
          simp only [Except.error.injEq] at hr
          subst hr
          exact Or.inr (Or.inr (Or.inl ⟨df, hsp⟩))
        · rw [mainRun_hosted_ok fs env evs fs' df hc hsp] at hr
          simp only at hr
          rcases topicLoop_error true df env topics e hr with ⟨t, ht⟩
          simp only [if_true] at ht
          exact Or.inr (Or.inr (Or.inr (Or.inl ⟨t, df, ht⟩)))

/-- Witness for C5: a concrete run whose loader fails exits nonzero with the
loader's own error. -/
theorem errors_propagate_witness :
    (mainRun false none loadFailEnv).result =
      Except.error Err.sourceUnavailable ∧
    (exitCode (mainRun false none loadFailEnv) = 1 ∧
      (loadFailEnv.load_data = Except.error Err.sourceUnavailable ∨
       (∃ c, loadFailEnv.embed_df c = Except.error Err.sourceUnavailable) ∨
       (∃ c, loadFailEnv.setup_pinecone c =
          Except.error Err.sourceUnavailable) ∨
       (∃ t c, loadFailEnv.summarize_pinecone t 3 c =
          Except.error Err.sourceUnavailable) ∨
       (∃ t c, loadFailEnv.summarize_local t 3 c =
          Except.error Err.sourceUnavailable))) :=
  ⟨rfl, (errors_propagate false none loadFailEnv).2 Err.sourceUnavailable rfl⟩

/-- C10: every run that gets past the corpus and provisioning steps processes
exactly the three hard-coded topic strings in their fixed order, requests 3
articles for each, and prints each topic's summary followed by a blank-line
separator. -/
theorem fixed_topic_loop (f : Bool) (fs : Option Corpus) (env : Env)
    (df : Corpus) (s₁ s₂ s₃ : String)
    (hok : (cachePhase fs env).2.2 = Except.ok df)
    (hsp : f = true → env.setup_pinecone df = Except.ok ())
    (h₁ : (if f then env.summarize_pinecone
        "soccer teams/players going through trouble" 3 df
      else env.summarize_local
        "soccer teams/players going through trouble" 3 df) = Except.ok s₁)
    (h₂ : (if f then env.summarize_pinecone
        "environmental factors affecting economy" 3 df
      else env.summarize_local
        "environmental factors affecting economy" 3 df) = Except.ok s₂)
    (h₃ : (if f then env.summarize_pinecone
        "celebrity or politician scandals" 3 df
      else env.summarize_local
        "celebrity or politician scandals" 3 df) = Except.ok s₃) :
    topics = ["soccer teams/players going through trouble",
      "environmental factors affecting economy",
      "celebrity or politician scandals"] ∧
    (mainRun f fs env).events =
      (cachePhase fs env).1 ++ (if f then [Event.provision] else []) ++
      [Event.retrieve f "soccer teams/players going through trouble" 3,
       Event.output s₁, Event.output "\n",
       Event.retrieve f "environmental factors affecting economy" 3,
       Event.output s₂, Event.output "\n",
       Event.retrieve f "celebrity or politician scandals" 3,
       Event.output s₃, Event.output "\n"] := by
  refine ⟨rfl, ?_⟩
  have hc : cachePhase fs env =
      ((cachePhase fs env).1, (cachePhase fs env).2.1, Except.ok df) := by
    rw [← hok]
  cases f with
  | false =>
    simp only [Bool.false_eq_true, if_false] at h₁ h₂ h₃ ⊢
    rw [mainRun_local fs env (cachePhase fs env).1 (cachePhase fs env).2.1
      df hc]
    have hloop : (topicLoop false df env topics).1 =
        [Event.retrieve false "soccer teams/players going through trouble" 3,
         Event.output s₁, Event.output "\n",
         Event.retrieve false "environmental factors affecting economy" 3,
         Event.output s₂, Event.output "\n",
         Event.retrieve false "celebrity or politician scandals" 3,
         Event.output s₃, Event.output "\n"] := by
      simp [topics, topicLoop, h₁, h₂, h₃]
    simp only [hloop]
    simp
  | true =>
    simp only [if_true] at h₁ h₂ h₃ ⊢
    rw [mainRun_hosted_ok fs env (cachePhase fs env).1 (cachePhase fs env).2.1
      df hc (hsp rfl)]
    have hloop : (topicLoop true df env topics).1 =
        [Event.retrieve true "soccer teams/players going through trouble" 3,
         Event.output s₁, Event.output "\n",
         Event.retrieve true "environmental factors affecting economy" 3,
         Event.output s₂, Event.output "\n",
         Event.retrieve true "celebrity or politician scandals" 3,
         Event.output s₃, Event.output "\n"] := by
      simp [topics, topicLoop, h₁, h₂, h₃]
    simp only [hloop]
    simp

/-- Witness for C10 at a concrete local-mode run with the snapshot present. -/
theorem fixed_topic_loop_witness :
    (cachePhase (some []) okEnv).2.2 = Except.ok [] ∧
    (mainRun false (some []) okEnv).events =
      (cachePhase (some []) okEnv).1 ++
        (if false then [Event.provision] else []) ++
      [Event.retrieve false "soccer teams/players going through trouble" 3,
       Event.output "L", Event.output "\n",
       Event.retrieve false "environmental factors affecting economy" 3,
       Event.output "L", Event.output "\n",
       Event.retrieve false "celebrity or politician scandals" 3,
       Event.output "L", Event.output "\n"] :=
  ⟨rfl, (fixed_topic_loop false (some []) okEnv [] "L" "L" "L" rfl
    (fun h => Bool.noConfusion h) rfl rfl rfl).2⟩

/-- Indices in `enumFrom n l` are at least `n`. -/
theorem fst_ge_of_mem_enumFrom {α : Type} {x : Nat × α} {n : Nat}
    {l : List α} (h : x ∈ List.enumFrom n l) : n ≤ x.1 := by
  induction l generalizing n with
  | nil => simp [List.enumFrom] at h
  | cons a as ih =>
    simp only [List.enumFrom, List.mem_cons] at h
    rcases h with rfl | h'
    · exact le_refl n
    · exact le_trans (Nat.le_succ n) (ih h')

/-- The indices of an enumerated list are strictly increasing. -/
theorem enumFrom_fst_pairwise {α : Type} (n : Nat) (l : List α) :
    List.Pairwise (fun x y : Nat × α => x.1 < y.1) (List.enumFrom n l) := by
  induction l generalizing n with
  | nil => simp [List.enumFrom]
  | cons a as ih =>
    simp only [List.enumFrom]
    refine List.pairwise_cons.mpr ⟨fun b hb => ?_, ih (n + 1)⟩
    exact lt_of_lt_of_le (Nat.lt_succ_self n) (fst_ge_of_mem_enumFrom hb)

/-- C3: the Local Retriever's ranked result set has length exactly
min(requested count, corpus size), is sorted by non-increasing similarity
score, and breaks equal-score ties by original corpus order. -/
theorem local_retriever_ranked (client : String → List Int) (query : String)
    (count : Nat) (corpus : Corpus) :
    (retrieveLocal client query count corpus).length =
      min count corpus.length ∧
    List.Pairwise (fun x y : Nat × Int => x.2 ≥ y.2)
      (retrieveLocal client query count corpus) ∧
    List.Pairwise RankedBefore (retrieveLocal client query count corpus) := by
  have hp : List.Pairwise RankedBefore
      (sortByScoreDesc ((corpus.map fun r =>
        similarity (client query) (r.embedding.getD [])).enum)) :=
    sortByScoreDesc_pairwise (enumFrom_fst_pairwise 0 _)
  have htake : List.Pairwise RankedBefore
      (retrieveLocal client query count corpus) := by
    simp only [retrieveLocal]
    exact List.Pairwise.sublist (List.take_sublist _ _) hp
  refine ⟨?_, ?_, htake⟩
  · simp [retrieveLocal, List.length_take, length_sortByScoreDesc]
  · refine htake.imp ?_
    intro x y hxy
    rcases hxy with h | ⟨h, _⟩
    · exact le_of_lt h
    · exact le_of_eq h.symm
